import Mathlib

/-!
# Philox counter-based generator (`math/randomnumbers/philox.hpp`)

A shallow embedding of the `philox<2, Uint, R, Constants>` and
`philox<4, Uint, R, Constants>` class templates.

* A machine word of type `Uint` is a natural number below `2 ^ w`; wrapping
  additions carry an explicit `% 2 ^ w`.
* `boost::array<Uint, n>` is a record with `n` fields.
* The template parameters `Uint`, `R` and `Constants` are ordinary arguments
  (`w`, `R`, `K`).
* `operator()` runs on an explicit frame holding the instance, the by-value
  argument `c` and the local `kcopy`.
-/

namespace Philox

/-! ## Data model -/

/-- The type `boost::array<Uint, 1>`. -/
structure array1 where
  e0 : Nat
deriving DecidableEq

/-- The type `boost::array<Uint, 2>`. -/
structure array2 where
  e0 : Nat
  e1 : Nat
deriving DecidableEq

/-- The type `boost::array<Uint, 4>`. -/
structure array4 where
  e0 : Nat
  e1 : Nat
  e2 : Nat
  e3 : Nat
deriving DecidableEq

/-- Every element is a `w`-bit word. -/
def array1.wf (w : Nat) (a : array1) : Prop := a.e0 < 2 ^ w

/-- Every element is a `w`-bit word. -/
def array2.wf (w : Nat) (a : array2) : Prop := a.e0 < 2 ^ w ∧ a.e1 < 2 ^ w

/-- Every element is a `w`-bit word. -/
def array4.wf (w : Nat) (a : array4) : Prop :=
  a.e0 < 2 ^ w ∧ a.e1 < 2 ^ w ∧ a.e2 < 2 ^ w ∧ a.e3 < 2 ^ w

instance (w : Nat) (a : array1) : Decidable (a.wf w) := by
  unfold array1.wf; infer_instance

instance (w : Nat) (a : array2) : Decidable (a.wf w) := by
  unfold array2.wf; infer_instance

instance (w : Nat) (a : array4) : Decidable (a.wf w) := by
  unfold array4.wf; infer_instance

/-- The two word types the constants are specialised for. -/
inductive Uint where
  | uint32_t
  | uint64_t
deriving DecidableEq

/-- Bit width of a word type. -/
def Uint.bits : Uint → Nat
  | .uint32_t => 32
  | .uint64_t => 64

/-- Members of a `philox_constants<2, Uint>` specialisation. -/
structure constants2 where
  M0 : Nat
  W0 : Nat
deriving DecidableEq

/-- Members of a `philox_constants<4, Uint>` specialisation. -/
structure constants4 where
  M0 : Nat
  M1 : Nat
  W0 : Nat
  W1 : Nat
deriving DecidableEq

/-- The specialisations `philox_constants<2, uint64_t>` and
`philox_constants<2, uint32_t>`. -/
def philox_constants_2 : Uint → constants2
  | .uint64_t => ⟨0xD2B74407B1CE6E93, 0x9E3779B97F4A7C15⟩
  | .uint32_t => ⟨0xD256D193, 0x9E3779B9⟩

/-- The specialisations `philox_constants<4, uint64_t>` and
`philox_constants<4, uint32_t>`. -/
def philox_constants_4 : Uint → constants4
  | .uint64_t =>
      ⟨0xD2E7470EE14C6C93, 0xCA5A826395121157, 0x9E3779B97F4A7C15, 0xBB67AE8584CAA73B⟩
  | .uint32_t => ⟨0xD2511F53, 0xCD9E8D57, 0x9E3779B9, 0xBB67AE85⟩

/-- The constants are `w`-bit words. -/
def constants2.wf (w : Nat) (K : constants2) : Prop := K.M0 < 2 ^ w ∧ K.W0 < 2 ^ w

/-- The constants are `w`-bit words. -/
def constants4.wf (w : Nat) (K : constants4) : Prop :=
  K.M0 < 2 ^ w ∧ K.M1 < 2 ^ w ∧ K.W0 < 2 ^ w ∧ K.W1 < 2 ^ w

instance (w : Nat) (K : constants2) : Decidable (K.wf w) := by
  unfold constants2.wf; infer_instance

instance (w : Nat) (K : constants4) : Decidable (K.wf w) := by
  unfold constants4.wf; infer_instance

/-! ## Multiply-high-low -/

/-- Modelled from the spec: `detail::mulhilo` of
`math/randomnumbers/detail/mulhilo.hpp`, a header that is included by
`philox.hpp` but is not among the sources. The spec (4.1): given two unsigned
words of the configured width, compute the full double-width product, return
the low half as the function result and write the high half to the output
parameter. The pair is `(result, hi)`. -/
def mulhilo (w : Nat) (a b : Nat) : Nat × Nat :=
  let p := (a * b) % 2 ^ (2 * w)
  (p % 2 ^ w, p / 2 ^ w)

/-! ## Control flow -/

/-- The statement `for (unsigned r = r0; r < R; ++r) body`, from the loop
variable value `r` on. As `r < R` holds before `++r`, the increment never
wraps. -/
def forLoop {σ : Type} (R : Nat) (body : σ → σ) (r : Nat) (s : σ) : σ :=
  if r < R then forLoop R body (r + 1) (body s) else s
termination_by R - r

/-! ## The 2-lane variant `philox<2, Uint, R, Constants>` -/

/-- An instance of `philox<2, Uint, R, Constants>`: the member `k`. -/
structure philox2 where
  k : array1
deriving DecidableEq

/-- Variables live during `operator()`: the instance, the argument `c`
and the local `kcopy`. -/
structure frame2 where
  self : philox2
  c : array2
  kcopy : array1

/-- The function `round(ctr, key)`; both reference arguments are returned. -/
def philox2.round (w : Nat) (K : constants2) (ctr : array2) (key : array1) :
    array2 × array1 :=
  let m := mulhilo w K.M0 ctr.e0
  let hi := m.2
  let lo := m.1
  let out : array2 := ⟨hi ^^^ key.e0 ^^^ ctr.e1, lo⟩
  (out, ⟨(key.e0 + K.W0) % 2 ^ w⟩)

/-- The loop body `round(c, kcopy)` on the frame. -/
def philox2.body (w : Nat) (K : constants2) (f : frame2) : frame2 :=
  let r := philox2.round w K f.c f.kcopy
  ⟨f.self, r.1, r.2⟩

/-- The frame at `return c` of `operator()(c)`. -/
def philox2.run (w : Nat) (K : constants2) (R : Nat) (g : philox2) (c : array2) : frame2 :=
  forLoop R (philox2.body w K) 0 ⟨g, c, g.k⟩

/-- The member `operator()(c)`: the returned value and the instance afterwards. -/
def philox2.call (w : Nat) (K : constants2) (R : Nat) (g : philox2) (c : array2) :
    array2 × philox2 :=
  let f := philox2.run w K R g c
  (f.c, f.self)

/-! ## The 4-lane variant `philox<4, Uint, R, Constants>` -/

/-- An instance of `philox<4, Uint, R, Constants>`: the member `k`. -/
structure philox4 where
  k : array2
deriving DecidableEq

/-- Variables live during `operator()`: the instance, the argument `c`
and the local `kcopy`. -/
structure frame4 where
  self : philox4
  c : array4
  kcopy : array2

/-- The function `round(ctr, key)`; both reference arguments are returned. -/
def philox4.round (w : Nat) (K : constants4) (ctr : array4) (key : array2) :
    array4 × array2 :=
  let m0 := mulhilo w K.M0 ctr.e0
  let hi0 := m0.2
  let lo0 := m0.1
  let m1 := mulhilo w K.M1 ctr.e2
  let hi1 := m1.2
  let lo1 := m1.1
  let out : array4 := ⟨hi1 ^^^ ctr.e1 ^^^ key.e0, lo1, hi0 ^^^ ctr.e3 ^^^ key.e1, lo0⟩
  (out, ⟨(key.e0 + K.W0) % 2 ^ w, (key.e1 + K.W1) % 2 ^ w⟩)

/-- The loop body `round(c, kcopy)` on the frame. -/
def philox4.body (w : Nat) (K : constants4) (f : frame4) : frame4 :=
  let r := philox4.round w K f.c f.kcopy
  ⟨f.self, r.1, r.2⟩

/-- The frame at `return c` of `operator()(c)`. -/
def philox4.run (w : Nat) (K : constants4) (R : Nat) (g : philox4) (c : array4) : frame4 :=
  forLoop R (philox4.body w K) 0 ⟨g, c, g.k⟩

/-- The member `operator()(c)`: the returned value and the instance afterwards. -/
def philox4.call (w : Nat) (K : constants4) (R : Nat) (g : philox4) (c : array4) :
    array4 × philox4 :=
  let f := philox4.run w K R g c
  (f.c, f.self)

/-- The member `getkey()`. -/
def philox2.getkey (g : philox2) : array1 := g.k

/-- The member `getkey()`. -/
def philox4.getkey (g : philox4) : array2 := g.k

/-- The member `operator==`. -/
def philox2.eq (g rhs : philox2) : Bool := decide (g.k = rhs.k)

/-- The member `operator==`. -/
def philox4.eq (g rhs : philox4) : Bool := decide (g.k = rhs.k)

/-! ## Value-type operations -/

/-- The default constructor `philox() : k()`: the key is value-initialised. -/
def philox2.philox : philox2 := ⟨⟨0⟩⟩

/-- The constructor `philox(key_type _k) : k(_k)`. -/
def philox2.philox_key (_k : array1) : philox2 := ⟨_k⟩

/-- The copy constructor `philox(const philox& v) : k(v.k)`. -/
def philox2.philox_copy (v : philox2) : philox2 := ⟨v.k⟩

/-- The member `setkey(_k)`: the instance after `k = _k`. -/
def philox2.setkey (g : philox2) (_k : array1) : philox2 :=
  match g with
  | ⟨_⟩ => ⟨_k⟩

/-- The member `operator!=`. -/
def philox2.ne (g rhs : philox2) : Bool := decide (g.k ≠ rhs.k)

/-- The default constructor `philox() : k()`: the key is value-initialised. -/
def philox4.philox : philox4 := ⟨⟨0, 0⟩⟩

/-- The constructor `philox(key_type _k) : k(_k)`. -/
def philox4.philox_key (_k : array2) : philox4 := ⟨_k⟩

/-- The copy constructor `philox(const philox& v) : k(v.k)`. -/
def philox4.philox_copy (v : philox4) : philox4 := ⟨v.k⟩

/-- The member `setkey(_k)`: the instance after `k = _k`. -/
def philox4.setkey (g : philox4) (_k : array2) : philox4 :=
  match g with
  | ⟨_⟩ => ⟨_k⟩

/-- The member `operator!=`. -/
def philox4.ne (g rhs : philox4) : Bool := decide (g.k ≠ rhs.k)

/-- Two objects in one scope: an instance `v` and the instance `g` declared by
`philox g(v);`. -/
structure scope2 where
  v : philox2
  g : philox2

/-- The declaration `philox g(v);`. -/
def scope2.declare_copy (v : philox2) : scope2 := ⟨v, philox2.philox_copy v⟩

/-- The statement `v.setkey(_k);`. -/
def scope2.setkey_v (s : scope2) (_k : array1) : scope2 := ⟨s.v.setkey _k, s.g⟩

/-- The statement `g.setkey(_k);`. -/
def scope2.setkey_g (s : scope2) (_k : array1) : scope2 := ⟨s.v, s.g.setkey _k⟩

/-- Two objects in one scope: an instance `v` and the instance `g` declared by
`philox g(v);`. -/
structure scope4 where
  v : philox4
  g : philox4

/-- The declaration `philox g(v);`. -/
def scope4.declare_copy (v : philox4) : scope4 := ⟨v, philox4.philox_copy v⟩

/-- The statement `v.setkey(_k);`. -/
def scope4.setkey_v (s : scope4) (_k : array2) : scope4 := ⟨s.v.setkey _k, s.g⟩

/-- The statement `g.setkey(_k);`. -/
def scope4.setkey_g (s : scope4) (_k : array2) : scope4 := ⟨s.v, s.g.setkey _k⟩

/-! ## Single-bit changes of a counter -/

/-- Toggle bit `i` of a word. -/
def flipBit (x i : Nat) : Nat := x ^^^ 2 ^ i

/-- Toggle bit `i` of lane `j` of a 2-lane counter. -/
def array2.flip (a : array2) (j : Fin 2) (i : Nat) : array2 :=
  if j = 0 then ⟨flipBit a.e0 i, a.e1⟩ else ⟨a.e0, flipBit a.e1 i⟩

/-- Toggle bit `i` of lane `j` of a 4-lane counter. -/
def array4.flip (a : array4) (j : Fin 4) (i : Nat) : array4 :=
  if j = 0 then ⟨flipBit a.e0 i, a.e1, a.e2, a.e3⟩
  else if j = 1 then ⟨a.e0, flipBit a.e1 i, a.e2, a.e3⟩
  else if j = 2 then ⟨a.e0, a.e1, flipBit a.e2 i, a.e3⟩
  else ⟨a.e0, a.e1, a.e2, flipBit a.e3 i⟩

/-! ## The disabled `mpl::for_each` branch of `operator()` -/

/-- The call `mpl::for_each<mpl::range_c<unsigned, 0, R> >(f)`: the function
object is applied to the indices `0, 1, ..., R - 1` in this order. -/
def mpl_for_each_range {σ : Type} (R : Nat) (f : σ → Nat → σ) (s : σ) : σ :=
  (List.range R).foldl f s

/-- The member `_roundapplyer::operator()(unsigned)`: `round(c, k)` on the
variables `c` and `kcopy` the function object refers to. -/
def philox2.roundapplyer (w : Nat) (K : constants2) (f : frame2) (_ : Nat) : frame2 :=
  let r := philox2.round w K f.c f.kcopy
  ⟨f.self, r.1, r.2⟩

/-- The frame at `return c` of `operator()(c)` with the `#if 0` branch enabled. -/
def philox2.run_unrolled (w : Nat) (K : constants2) (R : Nat) (g : philox2) (c : array2) :
    frame2 :=
  mpl_for_each_range R (philox2.roundapplyer w K) ⟨g, c, g.k⟩

/-- The member `_roundapplyer::operator()(unsigned)`: `round(c, k)` on the
variables `c` and `kcopy` the function object refers to. -/
def philox4.roundapplyer (w : Nat) (K : constants4) (f : frame4) (_ : Nat) : frame4 :=
  let r := philox4.round w K f.c f.kcopy
  ⟨f.self, r.1, r.2⟩

/-- The frame at `return c` of `operator()(c)` with the `#if 0` branch enabled. -/
def philox4.run_unrolled (w : Nat) (K : constants4) (R : Nat) (g : philox4) (c : array4) :
    frame4 :=
  mpl_for_each_range R (philox4.roundapplyer w K) ⟨g, c, g.k⟩

/-! ## Instantiation of the class template -/

/-- The class definitions the name `philox<N, Uint, R, Constants>` can denote:
the primary template and the partial specialisations for `N = 2` and `N = 4`. -/
inductive philox_template where
  | primary
  | lanes2
  | lanes4
deriving DecidableEq

/-- Selection of the definition for lane count `N`: a partial specialisation
when one matches, the primary template otherwise. -/
def philox_select (N : Nat) : philox_template :=
  if N = 2 then .lanes2 else if N = 4 then .lanes4 else .primary

/-- Instantiation of `philox<N, ...>`: `none` when the build is rejected. The
primary template holds `BOOST_STATIC_ASSERT( N%2 == 0 )` and no member; the
specialisations hold no assertion. -/
def philox_instantiate (N : Nat) : Option philox_template :=
  match philox_select N with
  | .primary => if N % 2 = 0 then some .primary else none
  | .lanes2 => some .lanes2
  | .lanes4 => some .lanes4

end Philox

/-!
# The IBOR/OIS basis swap (`instruments/iboroisbasisswap.cpp`)

The constructors and `initialize()` of `IBOROISBasisSwap`. The QuantLib types
the class is built on are outside this repository; the embedding keeps from
them only what the code reads or writes:

* `Real` and `Spread` values are stored, never computed with, apart from the
  literals `-1.0` and `+1.0`; they are rationals.
* A schedule is its business day convention together with its dates; indexes
  and day counters are identifiers.
* The calls into QuantLib made by `initialize()` (the two leg builders, the
  pricer loop, `registerWith`) are arguments of the embedding, collected in
  `QuantLib`; each returns its result or throws.
* `registerWith` acts on the observer lists only, which are not part of the
  state below; only its throwing is kept.
-/

namespace QLExtension

/-- The types `Real` and `Spread`. -/
abbrev Real := Rat

/-- The enumeration `BusinessDayConvention`, by enumerator value. -/
abbrev BusinessDayConvention := Nat

/-- The enumeration `IBOROISBasisSwap::Type` of `instruments/iboroisbasisswap.hpp`,
a header that is not among the sources: the enumerators `Payer` and `Receiver`
named by `initialize()`, and `other` for every further value an object of the
enumeration type can hold. -/
inductive SwapType where
  | Payer
  | Receiver
  | other (v : Int)
deriving DecidableEq

/-- The type `Schedule`, with its member `businessDayConvention()`. -/
structure Schedule where
  dates : List Nat
  businessDayConvention : BusinessDayConvention
deriving DecidableEq

/-- The type `DayCounter`. -/
structure DayCounter where
  id : Nat
deriving DecidableEq

/-- The type `boost::shared_ptr<IborIndex>`. -/
structure IborIndex where
  id : Nat
deriving DecidableEq

/-- The type `boost::shared_ptr<OvernightIndex>`. -/
structure OvernightIndex where
  id : Nat
deriving DecidableEq

/-- The leg built by `IborLeg(schedule, index).withNotionals(..)
.withPaymentDayCounter(..).withPaymentAdjustment(..)`. -/
structure IborLeg where
  schedule : Schedule
  index : IborIndex
  notionals : List Real
  paymentDayCounter : DayCounter
  paymentAdjustment : BusinessDayConvention
deriving DecidableEq

/-- The leg built by `OvernightLeg(schedule, index).withNotionals(..)
.withPaymentDayCounter(..).withPaymentAdjustment(..).withSpreads(..)`;
`arithmeticPricer` tells whether every coupon was given an
`ArithmeticAveragedOvernightIndexedCouponPricer`. -/
structure OvernightLeg where
  schedule : Schedule
  index : OvernightIndex
  notionals : List Real
  paymentDayCounter : DayCounter
  paymentAdjustment : BusinessDayConvention
  spreads : Real
  arithmeticPricer : Bool
deriving DecidableEq

/-- The type `Leg`. -/
inductive Leg where
  | empty
  | ibor (l : IborLeg)
  | overnight (l : OvernightLeg)
deriving DecidableEq

/-- The data members of `IBOROISBasisSwap` the constructors and `initialize()`
write, with `legs_` and `payer_` of the base class `Swap(2)`. -/
structure IBOROISBasisSwap where
  type_ : SwapType
  nominals_ : List Real
  floatingSchedule_ : Schedule
  iborIndex_ : IborIndex
  floatingDayCount_ : DayCounter
  overnightSchedule_ : Schedule
  overnightIndex_ : OvernightIndex
  spread_ : Real
  overnightDayCount_ : DayCounter
  arithmeticAveragedCoupon_ : Bool
  paymentConvention_ : BusinessDayConvention
  legs_ : Leg × Leg
  payer_ : Real × Real
deriving DecidableEq

/-- The object with `legs_` and `payer_` replaced. -/
def IBOROISBasisSwap.withLegsPayer (s : IBOROISBasisSwap) (legs : Leg × Leg)
    (payer : Real × Real) : IBOROISBasisSwap :=
  ⟨s.type_, s.nominals_, s.floatingSchedule_, s.iborIndex_, s.floatingDayCount_,
    s.overnightSchedule_, s.overnightIndex_, s.spread_, s.overnightDayCount_,
    s.arithmeticAveragedCoupon_, s.paymentConvention_, legs, payer⟩

/-- The QuantLib operations called by `initialize()` before its `switch`.
QuantLib is outside this repository, so they are arguments of the embedding;
each returns its result or the error it throws.

* `iborLeg sch idx n dc bdc` is `IborLeg(sch, idx).withNotionals(n)
  .withPaymentDayCounter(dc).withPaymentAdjustment(bdc)` converted to `Leg`.
* `overnightLeg sch idx n dc bdc sp` is `OvernightLeg(sch, idx).withNotionals(n)
  .withPaymentDayCounter(dc).withPaymentAdjustment(bdc).withSpreads(sp)`
  converted to `Leg`.
* `setPricers l` is the loop over the coupons of `l` doing
  `dynamic_pointer_cast<OvernightIndexedCoupon>` and
  `c->setPricer(arithmeticPricer)`.
* `registerWith l` is the loop calling `registerWith(*i)` on the cash flows
  of `l`. -/
structure QuantLib where
  iborLeg : Schedule → IborIndex → List Real → DayCounter → BusinessDayConvention →
    Except String Leg
  overnightLeg : Schedule → OvernightIndex → List Real → DayCounter →
    BusinessDayConvention → Real → Except String Leg
  setPricers : Leg → Except String Leg
  registerWith : Leg → Except String Unit

/-- The call `c->setPricer(arithmeticPricer)` on every coupon of an overnight
leg. -/
def OvernightLeg.setPricer (l : OvernightLeg) : OvernightLeg :=
  ⟨l.schedule, l.index, l.notionals, l.paymentDayCounter, l.paymentAdjustment, l.spreads, true⟩

/-- An instance of the QuantLib operations, for evaluation. The leg builders
throw on an empty notional vector, as QuantLib's do
(`QL_REQUIRE(!notionals.empty(), "no notional given")`), and otherwise return
the record of their arguments; the pricer loop marks an overnight leg and
fails on any other leg; registration succeeds. -/
def QuantLib.recording : QuantLib where
  iborLeg sch idx n dc bdc :=
    match n with
    | [] => .error "no notional given"
    | _ :: _ => .ok (Leg.ibor ⟨sch, idx, n, dc, bdc⟩)
  overnightLeg sch idx n dc bdc sp :=
    match n with
    | [] => .error "no notional given"
    | _ :: _ => .ok (Leg.overnight ⟨sch, idx, n, dc, bdc, sp, false⟩)
  setPricers l :=
    match l with
    | .overnight o => .ok (Leg.overnight o.setPricer)
    | _ => .error "null coupon pointer"
  registerWith _ := .ok ()

/-- The statements of `initialize()` up to the `switch`: `legs_[0]` is built
from the floating schedule and the IBOR index, `legs_[1]` from the overnight
schedule and index; when `arithmeticAveragedCoupon_` is set, every coupon of
`legs_[1]` gets the arithmetic pricer; then the swap registers with the cash
flows of both legs. An exception thrown by any of the calls leaves
`initialize()`. -/
def IBOROISBasisSwap.buildLegs (ql : QuantLib) (s : IBOROISBasisSwap) :
    Except String (Leg × Leg) :=
  match ql.iborLeg s.floatingSchedule_ s.iborIndex_ s.nominals_ s.floatingDayCount_
      s.paymentConvention_ with
  | .error e => .error e
  | .ok leg0 =>
    match ql.overnightLeg s.overnightSchedule_ s.overnightIndex_ s.nominals_
        s.overnightDayCount_ s.paymentConvention_ s.spread_ with
    | .error e => .error e
    | .ok built1 =>
      match (if s.arithmeticAveragedCoupon_ then ql.setPricers built1 else .ok built1) with
      | .error e => .error e
      | .ok leg1 =>
        match ql.registerWith leg0 with
        | .error e => .error e
        | .ok _ =>
          match ql.registerWith leg1 with
          | .error e => .error e
          | .ok _ => .ok (leg0, leg1)

/-- The member `initialize()`: the object afterwards, or the error thrown,
by a call into QuantLib or by `QL_FAIL` in the `default:` branch. -/
def IBOROISBasisSwap.initialize_ (ql : QuantLib) (s : IBOROISBasisSwap) :
    Except String IBOROISBasisSwap :=
  match s.buildLegs ql with
  | .error e => .error e
  | .ok legs =>
    match s.type_ with
    | .Payer => .ok (s.withLegsPayer legs (-1, 1))
    | .Receiver => .ok (s.withLegsPayer legs (1, -1))
    | .other _ => .error "Unknown overnight-basis-swap type"

/-- The constructor taking `Real nominal`. The base `Swap(2)` starts with two
empty legs and `payer_` value-initialised. -/
def IBOROISBasisSwap.new_nominal (ql : QuantLib) (type : SwapType) (nominal : Real)
    (floatingSchedule : Schedule) (iborIndex : IborIndex) (floatingDayCount : DayCounter)
    (overnightSchedule : Schedule) (overnightIndex : OvernightIndex) (spread : Real)
    (overnightDayCount : DayCounter) (paymentConvention : Option BusinessDayConvention)
    (arithmeticAveragedCoupon : Bool) : Except String IBOROISBasisSwap :=
  let paymentConvention_ :=
    match paymentConvention with
    | some p => p
    | none => overnightSchedule.businessDayConvention
  IBOROISBasisSwap.initialize_ ql
    ⟨type, [nominal], floatingSchedule, iborIndex, floatingDayCount, overnightSchedule,
      overnightIndex, spread, overnightDayCount, arithmeticAveragedCoupon, paymentConvention_,
      (Leg.empty, Leg.empty), (0, 0)⟩

/-- The constructor taking `std::vector<Real> nominals`. -/
def IBOROISBasisSwap.new_nominals (ql : QuantLib) (type : SwapType) (nominals : List Real)
    (floatingSchedule : Schedule) (iborIndex : IborIndex) (floatingDayCount : DayCounter)
    (overnightSchedule : Schedule) (overnightIndex : OvernightIndex) (spread : Real)
    (overnightDayCount : DayCounter) (paymentConvention : Option BusinessDayConvention)
    (arithmeticAveragedCoupon : Bool) : Except String IBOROISBasisSwap :=
  let paymentConvention_ :=
    match paymentConvention with
    | some p => p
    | none => floatingSchedule.businessDayConvention
  IBOROISBasisSwap.initialize_ ql
    ⟨type, nominals, floatingSchedule, iborIndex, floatingDayCount, overnightSchedule,
      overnightIndex, spread, overnightDayCount, arithmeticAveragedCoupon, paymentConvention_,
      (Leg.empty, Leg.empty), (0, 0)⟩

end QLExtension

namespace Philox

/-! ## Loop lemmas -/

theorem forLoop_eq_iterate {σ : Type} (R : Nat) (body : σ → σ) :
    ∀ (n r : Nat) (s : σ), R - r = n → forLoop R body r s = body^[n] s := by
  intro n
  induction n with
  | zero =>
    intro r s h
    rw [forLoop, if_neg (by omega)]
    rfl
  | succ n ih =>
    intro r s h
    rw [forLoop, if_pos (by omega), ih (r + 1) (body s) (by omega)]
    rfl

theorem forLoop_zero {σ : Type} (R : Nat) (body : σ → σ) (s : σ) :
    forLoop R body 0 s = body^[R] s :=
  forLoop_eq_iterate R body R 0 s rfl

theorem philox2_iterate_body (w : Nat) (K : constants2) (g : philox2) :
    ∀ (n : Nat) (c : array2) (k : array1),
      (philox2.body w K)^[n] ⟨g, c, k⟩ =
        ⟨g, ((fun p => philox2.round w K p.1 p.2)^[n] (c, k)).1,
          ((fun p => philox2.round w K p.1 p.2)^[n] (c, k)).2⟩ := by
  intro n
  induction n with
  | zero => intro c k; rfl
  | succ n ih =>
    intro c k
    rw [Function.iterate_succ_apply, Function.iterate_succ_apply]
    exact ih _ _

theorem philox4_iterate_body (w : Nat) (K : constants4) (g : philox4) :
    ∀ (n : Nat) (c : array4) (k : array2),
      (philox4.body w K)^[n] ⟨g, c, k⟩ =
        ⟨g, ((fun p => philox4.round w K p.1 p.2)^[n] (c, k)).1,
          ((fun p => philox4.round w K p.1 p.2)^[n] (c, k)).2⟩ := by
  intro n
  induction n with
  | zero => intro c k; rfl
  | succ n ih =>
    intro c k
    rw [Function.iterate_succ_apply, Function.iterate_succ_apply]
    exact ih _ _

theorem philox2_run_eq (w : Nat) (K : constants2) (R : Nat) (g : philox2) (c : array2) :
    philox2.run w K R g c =
      ⟨g, ((fun p => philox2.round w K p.1 p.2)^[R] (c, g.k)).1,
        ((fun p => philox2.round w K p.1 p.2)^[R] (c, g.k)).2⟩ := by
  rw [philox2.run, forLoop_zero, philox2_iterate_body]

theorem philox4_run_eq (w : Nat) (K : constants4) (R : Nat) (g : philox4) (c : array4) :
    philox4.run w K R g c =
      ⟨g, ((fun p => philox4.round w K p.1 p.2)^[R] (c, g.k)).1,
        ((fun p => philox4.round w K p.1 p.2)^[R] (c, g.k)).2⟩ := by
  rw [philox4.run, forLoop_zero, philox4_iterate_body]

/-! ## Multiply-high-low lemmas -/

theorem mul_lt_two_pow_double {w a b : Nat} (ha : a < 2 ^ w) (hb : b < 2 ^ w) :
    a * b < 2 ^ (2 * w) := by
  have h : a * b < 2 ^ w * 2 ^ w := Nat.mul_lt_mul'' ha hb
  rw [two_mul, pow_add]
  exact h

theorem mulhilo_of_lt {w a b : Nat} (ha : a < 2 ^ w) (hb : b < 2 ^ w) :
    mulhilo w a b = (a * b % 2 ^ w, a * b / 2 ^ w) := by
  unfold mulhilo
  simp only [Nat.mod_eq_of_lt (mul_lt_two_pow_double ha hb)]

theorem mulhilo_lo_lt (w a b : Nat) : (mulhilo w a b).1 < 2 ^ w :=
  Nat.mod_lt _ (Nat.two_pow_pos w)

theorem mulhilo_hi_lt (w a b : Nat) : (mulhilo w a b).2 < 2 ^ w := by
  unfold mulhilo
  apply Nat.div_lt_of_lt_mul
  have h : a * b % 2 ^ (2 * w) < 2 ^ (2 * w) := Nat.mod_lt _ (Nat.two_pow_pos _)
  have e : 2 ^ (2 * w) = 2 ^ w * 2 ^ w := by rw [two_mul, pow_add]
  exact lt_of_lt_of_eq h e

theorem mulhilo_lo (w a b : Nat) : (mulhilo w a b).1 = a * b % 2 ^ w := by
  unfold mulhilo
  exact Nat.mod_mod_of_dvd _ (pow_dvd_pow 2 (by omega))

/-! ## Injectivity lemmas -/

theorem odd_mul_mod_inj {w M x y : Nat} (hM : M % 2 = 1) (hx : x < 2 ^ w) (hy : y < 2 ^ w)
    (h : M * x % 2 ^ w = M * y % 2 ^ w) : x = y := by
  have hc : Nat.gcd (2 ^ w) M = 1 :=
    Nat.Coprime.pow_left w (Nat.coprime_two_left.mpr (Nat.odd_iff.mpr hM))
  have h2 : x ≡ y [MOD 2 ^ w] := Nat.ModEq.cancel_left_of_coprime hc h
  exact Nat.ModEq.eq_of_lt_of_lt h2 hx hy

theorem mulhilo_inj {w M x y : Nat} (hM : M % 2 = 1) (hx : x < 2 ^ w) (hy : y < 2 ^ w)
    (h : (mulhilo w M x).1 = (mulhilo w M y).1) : x = y := by
  rw [mulhilo_lo, mulhilo_lo] at h
  exact odd_mul_mod_inj hM hx hy h

theorem flipBit_ne (x i : Nat) : flipBit x i ≠ x := by
  intro h
  have h1 : x ^^^ 2 ^ i = x ^^^ 0 := by
    rw [Nat.xor_zero]
    exact h
  have h2 : 2 ^ i = 0 := Nat.xor_right_injective h1
  exact absurd h2 (Nat.pos_iff_ne_zero.mp (Nat.two_pow_pos i))

theorem flipBit_lt {w x i : Nat} (hx : x < 2 ^ w) (hi : i < w) : flipBit x i < 2 ^ w :=
  Nat.xor_lt_two_pow hx (Nat.pow_lt_pow_right (by decide) hi)

theorem array2_flip_ne (a : array2) (j : Fin 2) (i : Nat) : a.flip j i ≠ a := by
  obtain ⟨e0, e1⟩ := a
  have h0 := flipBit_ne e0 i
  have h1 := flipBit_ne e1 i
  fin_cases j <;> simp [array2.flip, h0, h1]

theorem array2_flip_wf {w : Nat} (a : array2) (j : Fin 2) (i : Nat) (ha : a.wf w)
    (hi : i < w) : (a.flip j i).wf w := by
  obtain ⟨e0, e1⟩ := a
  obtain ⟨a0, a1⟩ := ha
  have h0 := flipBit_lt a0 hi
  have h1 := flipBit_lt a1 hi
  fin_cases j <;> simp [array2.flip, array2.wf] <;> simp_all

theorem array4_flip_ne (a : array4) (j : Fin 4) (i : Nat) : a.flip j i ≠ a := by
  obtain ⟨e0, e1, e2, e3⟩ := a
  have h0 := flipBit_ne e0 i
  have h1 := flipBit_ne e1 i
  have h2 := flipBit_ne e2 i
  have h3 := flipBit_ne e3 i
  fin_cases j <;> simp [array4.flip, h0, h1, h2, h3]

theorem array4_flip_wf {w : Nat} (a : array4) (j : Fin 4) (i : Nat) (ha : a.wf w)
    (hi : i < w) : (a.flip j i).wf w := by
  obtain ⟨e0, e1, e2, e3⟩ := a
  obtain ⟨a0, a1, a2, a3⟩ := ha
  have h0 := flipBit_lt a0 hi
  have h1 := flipBit_lt a1 hi
  have h2 := flipBit_lt a2 hi
  have h3 := flipBit_lt a3 hi
  fin_cases j <;> simp [array4.flip, array4.wf] <;> simp_all

theorem array2_wf_finite (w : Nat) : {c : array2 | c.wf w}.Finite := by
  have h : (Set.Iio (2 ^ w) ×ˢ Set.Iio (2 ^ w) : Set (Nat × Nat)).Finite :=
    (Set.finite_Iio _).prod (Set.finite_Iio _)
  refine (h.image (fun p => array2.mk p.1 p.2)).subset ?_
  rintro ⟨a, b⟩ ⟨ha, hb⟩
  exact ⟨(a, b), ⟨ha, hb⟩, rfl⟩

theorem array4_wf_finite (w : Nat) : {c : array4 | c.wf w}.Finite := by
  have h : (Set.Iio (2 ^ w) ×ˢ Set.Iio (2 ^ w) ×ˢ Set.Iio (2 ^ w) ×ˢ Set.Iio (2 ^ w) :
      Set (Nat × Nat × Nat × Nat)).Finite :=
    (Set.finite_Iio _).prod ((Set.finite_Iio _).prod ((Set.finite_Iio _).prod (Set.finite_Iio _)))
  refine (h.image (fun p => array4.mk p.1 p.2.1 p.2.2.1 p.2.2.2)).subset ?_
  rintro ⟨a, b, c, d⟩ ⟨ha, hb, hc, hd⟩
  exact ⟨(a, b, c, d), ⟨ha, hb, hc, hd⟩, rfl⟩

theorem philox2_round_wf {w : Nat} (K : constants2) {c : array2} {k : array1}
    (hc : c.wf w) (hk : k.wf w) :
    (philox2.round w K c k).1.wf w ∧ (philox2.round w K c k).2.wf w := by
  refine ⟨⟨?_, mulhilo_lo_lt w _ _⟩, Nat.mod_lt _ (Nat.two_pow_pos w)⟩
  exact Nat.xor_lt_two_pow (Nat.xor_lt_two_pow (mulhilo_hi_lt w _ _) hk) hc.2

theorem philox2_round_inj {w : Nat} {K : constants2} (hM : K.M0 % 2 = 1) {c d : array2}
    (k : array1) (hc : c.wf w) (hd : d.wf w)
    (h : (philox2.round w K c k).1 = (philox2.round w K d k).1) : c = d := by
  obtain ⟨c0, c1⟩ := c
  obtain ⟨d0, d1⟩ := d
  simp only [philox2.round, array2.mk.injEq] at h
  obtain ⟨h0, h1⟩ := h
  have e0 : c0 = d0 := mulhilo_inj hM hc.1 hd.1 h1
  subst e0
  have e1 : c1 = d1 := Nat.xor_right_injective h0
  subst e1
  rfl

theorem philox2_iterate_wf {w : Nat} (K : constants2) :
    ∀ (n : Nat) (c : array2) (k : array1), c.wf w → k.wf w →
      ((fun p => philox2.round w K p.1 p.2)^[n] (c, k)).1.wf w := by
  intro n
  induction n with
  | zero => intro c k hc _; exact hc
  | succ n ih =>
    intro c k hc hk
    rw [Function.iterate_succ_apply]
    exact ih _ _ (philox2_round_wf K hc hk).1 (philox2_round_wf K hc hk).2

theorem philox2_iterate_inj {w : Nat} {K : constants2} (hM : K.M0 % 2 = 1) :
    ∀ (n : Nat) (c d : array2) (k : array1), c.wf w → d.wf w → k.wf w →
      ((fun p => philox2.round w K p.1 p.2)^[n] (c, k)).1 =
        ((fun p => philox2.round w K p.1 p.2)^[n] (d, k)).1 → c = d := by
  intro n
  induction n with
  | zero => intro c d k _ _ _ h; exact h
  | succ n ih =>
    intro c d k hc hd hk h
    rw [Function.iterate_succ_apply, Function.iterate_succ_apply] at h
    have hk2 : (philox2.round w K d k).2 = (philox2.round w K c k).2 := rfl
    have h1 : (philox2.round w K c k).1 = (philox2.round w K d k).1 := by
      apply ih _ _ (philox2.round w K c k).2 (philox2_round_wf K hc hk).1
        (philox2_round_wf K hd hk).1 (philox2_round_wf K hc hk).2
      rw [← hk2]
      exact h
    exact philox2_round_inj hM k hc hd h1

theorem philox4_round_wf {w : Nat} (K : constants4) {c : array4} {k : array2}
    (hc : c.wf w) (hk : k.wf w) :
    (philox4.round w K c k).1.wf w ∧ (philox4.round w K c k).2.wf w := by
  obtain ⟨-, c1, -, c3⟩ := hc
  refine ⟨⟨?_, mulhilo_lo_lt w _ _, ?_, mulhilo_lo_lt w _ _⟩,
    Nat.mod_lt _ (Nat.two_pow_pos w), Nat.mod_lt _ (Nat.two_pow_pos w)⟩
  · exact Nat.xor_lt_two_pow (Nat.xor_lt_two_pow (mulhilo_hi_lt w _ _) c1) hk.1
  · exact Nat.xor_lt_two_pow (Nat.xor_lt_two_pow (mulhilo_hi_lt w _ _) c3) hk.2

theorem philox4_round_inj {w : Nat} {K : constants4} (hM0 : K.M0 % 2 = 1)
    (hM1 : K.M1 % 2 = 1) {c d : array4} (k : array2) (hc : c.wf w) (hd : d.wf w)
    (h : (philox4.round w K c k).1 = (philox4.round w K d k).1) : c = d := by
  obtain ⟨c0, c1, c2, c3⟩ := c
  obtain ⟨d0, d1, d2, d3⟩ := d
  simp only [philox4.round, array4.mk.injEq] at h
  obtain ⟨h0, h1, h2, h3⟩ := h
  have e0 : c0 = d0 := mulhilo_inj hM0 hc.1 hd.1 h3
  have e2 : c2 = d2 := mulhilo_inj hM1 hc.2.2.1 hd.2.2.1 h1
  subst e0
  subst e2
  have e1 : c1 = d1 := Nat.xor_right_injective (Nat.xor_left_injective h0)
  have e3 : c3 = d3 := Nat.xor_right_injective (Nat.xor_left_injective h2)
  subst e1
  subst e3
  rfl

theorem philox4_iterate_wf {w : Nat} (K : constants4) :
    ∀ (n : Nat) (c : array4) (k : array2), c.wf w → k.wf w →
      ((fun p => philox4.round w K p.1 p.2)^[n] (c, k)).1.wf w := by
  intro n
  induction n with
  | zero => intro c k hc _; exact hc
  | succ n ih =>
    intro c k hc hk
    rw [Function.iterate_succ_apply]
    exact ih _ _ (philox4_round_wf K hc hk).1 (philox4_round_wf K hc hk).2

theorem philox4_iterate_inj {w : Nat} {K : constants4} (hM0 : K.M0 % 2 = 1)
    (hM1 : K.M1 % 2 = 1) :
    ∀ (n : Nat) (c d : array4) (k : array2), c.wf w → d.wf w → k.wf w →
      ((fun p => philox4.round w K p.1 p.2)^[n] (c, k)).1 =
        ((fun p => philox4.round w K p.1 p.2)^[n] (d, k)).1 → c = d := by
  intro n
  induction n with
  | zero => intro c d k _ _ _ h; exact h
  | succ n ih =>
    intro c d k hc hd hk h
    rw [Function.iterate_succ_apply, Function.iterate_succ_apply] at h
    have hk2 : (philox4.round w K d k).2 = (philox4.round w K c k).2 := rfl
    have h1 : (philox4.round w K c k).1 = (philox4.round w K d k).1 := by
      apply ih _ _ (philox4.round w K c k).2 (philox4_round_wf K hc hk).1
        (philox4_round_wf K hd hk).1 (philox4_round_wf K hc hk).2
      rw [← hk2]
      exact h
    exact philox4_round_inj hM0 hM1 k hc hd h1

theorem philox2_call_bijOn {w : Nat} {K : constants2} (hM : K.M0 % 2 = 1) (R : Nat)
    (g : philox2) (hg : g.k.wf w) :
    Set.BijOn (fun c => (philox2.call w K R g c).1) {c | c.wf w} {c | c.wf w} := by
  have hmaps : Set.MapsTo (fun c => (philox2.call w K R g c).1) {c | c.wf w} {c | c.wf w} := by
    intro c hc
    simp only [philox2.call, philox2_run_eq, Set.mem_setOf_eq]
    exact philox2_iterate_wf K R c g.k hc hg
  refine ((array2_wf_finite w).injOn_iff_bijOn_of_mapsTo hmaps).mp ?_
  intro c hc d hd h
  simp only [philox2.call, philox2_run_eq] at h
  exact philox2_iterate_inj hM R c d g.k hc hd hg h

theorem philox4_call_bijOn {w : Nat} {K : constants4} (hM0 : K.M0 % 2 = 1)
    (hM1 : K.M1 % 2 = 1) (R : Nat) (g : philox4) (hg : g.k.wf w) :
    Set.BijOn (fun c => (philox4.call w K R g c).1) {c | c.wf w} {c | c.wf w} := by
  have hmaps : Set.MapsTo (fun c => (philox4.call w K R g c).1) {c | c.wf w} {c | c.wf w} := by
    intro c hc
    simp only [philox4.call, philox4_run_eq, Set.mem_setOf_eq]
    exact philox4_iterate_wf K R c g.k hc hg
  refine ((array4_wf_finite w).injOn_iff_bijOn_of_mapsTo hmaps).mp ?_
  intro c hc d hd h
  simp only [philox4.call, philox4_run_eq] at h
  exact philox4_iterate_inj hM0 hM1 R c d g.k hc hd hg h

theorem philox_constants_2_odd (U : Uint) : (philox_constants_2 U).M0 % 2 = 1 := by
  cases U <;> decide

theorem philox_constants_4_odd (U : Uint) :
    (philox_constants_4 U).M0 % 2 = 1 ∧ (philox_constants_4 U).M1 % 2 = 1 := by
  cases U <;> decide

/-! ## Key schedule and loop shape lemmas -/

theorem forLoop_split {σ : Type} (R : Nat) (body : σ → σ) (r : Nat) (s : σ) (hr : r ≤ R) :
    forLoop R body 0 s = forLoop R body r (forLoop r body 0 s) := by
  rw [forLoop_zero, forLoop_zero, forLoop_eq_iterate R body (R - r) r _ rfl,
    ← Function.iterate_add_apply, Nat.sub_add_cancel hr]

theorem mpl_for_each_range_eq_iterate {σ : Type} (f : σ → Nat → σ) (b : σ → σ)
    (h : ∀ s i, f s i = b s) (s : σ) :
    ∀ R : Nat, mpl_for_each_range R f s = b^[R] s := by
  intro R
  induction R with
  | zero => rfl
  | succ n ih =>
    unfold mpl_for_each_range at ih ⊢
    rw [List.range_succ, List.foldl_append, ih, Function.iterate_succ_apply']
    exact h _ _

theorem philox2_iterate_key (w : Nat) (K : constants2) (c : array2) (k : array1)
    (hk : k.wf w) :
    ∀ n : Nat, ((fun p => philox2.round w K p.1 p.2)^[n] (c, k)).2 =
      ⟨(k.e0 + n * K.W0) % 2 ^ w⟩ := by
  intro n
  induction n with
  | zero =>
    obtain ⟨k0⟩ := k
    simp only [Function.iterate_zero, id_eq, Nat.zero_mul, Nat.add_zero]
    rw [Nat.mod_eq_of_lt hk]
  | succ n ih =>
    rw [Function.iterate_succ_apply']
    show (philox2.round w K _ _).2 = _
    rw [ih]
    simp only [philox2.round, Nat.mod_add_mod, array1.mk.injEq]
    congr 1
    ring

theorem philox4_iterate_key (w : Nat) (K : constants4) (c : array4) (k : array2)
    (hk : k.wf w) :
    ∀ n : Nat, ((fun p => philox4.round w K p.1 p.2)^[n] (c, k)).2 =
      ⟨(k.e0 + n * K.W0) % 2 ^ w, (k.e1 + n * K.W1) % 2 ^ w⟩ := by
  intro n
  induction n with
  | zero =>
    obtain ⟨k0, k1⟩ := k
    simp only [Function.iterate_zero, id_eq, Nat.zero_mul, Nat.add_zero]
    rw [Nat.mod_eq_of_lt hk.1, Nat.mod_eq_of_lt hk.2]
  | succ n ih =>
    rw [Function.iterate_succ_apply']
    show (philox4.round w K _ _).2 = _
    rw [ih]
    simp only [philox4.round, Nat.mod_add_mod, array2.mk.injEq]
    constructor <;> (congr 1; ring)

theorem philox2_iterate_add (w : Nat) (K : constants2) (c : array2) (k : array1)
    (hk : k.wf w) (R1 R2 : Nat) :
    ((fun p => philox2.round w K p.1 p.2)^[R1 + R2] (c, k)).1 =
      ((fun p => philox2.round w K p.1 p.2)^[R2]
        (((fun p => philox2.round w K p.1 p.2)^[R1] (c, k)).1,
          ⟨(k.e0 + R1 * K.W0) % 2 ^ w⟩)).1 := by
  rw [Nat.add_comm, Function.iterate_add_apply, ← philox2_iterate_key w K c k hk R1]

theorem philox4_iterate_add (w : Nat) (K : constants4) (c : array4) (k : array2)
    (hk : k.wf w) (R1 R2 : Nat) :
    ((fun p => philox4.round w K p.1 p.2)^[R1 + R2] (c, k)).1 =
      ((fun p => philox4.round w K p.1 p.2)^[R2]
        (((fun p => philox4.round w K p.1 p.2)^[R1] (c, k)).1,
          ⟨(k.e0 + R1 * K.W0) % 2 ^ w, (k.e1 + R1 * K.W1) % 2 ^ w⟩)).1 := by
  rw [Nat.add_comm, Function.iterate_add_apply, ← philox4_iterate_key w K c k hk R1]

/-! ## Round functions -/

/-- C1: one call of the 4-lane `round` on `w`-bit words replaces the counter
`(c0, c1, c2, c3)` by `(hi1 XOR c1 XOR k0, lo1, hi0 XOR c3 XOR k1, lo0)` and the
key `(k0, k1)` by `((k0 + W0) mod 2^w, (k1 + W1) mod 2^w)`, where `hi0`, `lo0`
are the quotient and remainder of the exact product `M0 * c0` by `2^w` and
`hi1`, `lo1` those of `M1 * c2`. -/
theorem philox4_round_spec (w : Nat) (K : constants4) (c : array4) (k : array2)
    (hK : K.wf w) (hc : c.wf w) :
    philox4.round w K c k =
      (⟨(K.M1 * c.e2 / 2 ^ w) ^^^ c.e1 ^^^ k.e0, K.M1 * c.e2 % 2 ^ w,
        (K.M0 * c.e0 / 2 ^ w) ^^^ c.e3 ^^^ k.e1, K.M0 * c.e0 % 2 ^ w⟩,
       ⟨(k.e0 + K.W0) % 2 ^ w, (k.e1 + K.W1) % 2 ^ w⟩) := by
  obtain ⟨hM0, hM1, -, -⟩ := hK
  obtain ⟨h0, -, h2, -⟩ := hc
  simp only [philox4.round, mulhilo_of_lt hM0 h0, mulhilo_of_lt hM1 h2]

theorem philox4_round_spec_witness :
    (philox_constants_4 .uint64_t).wf 64 ∧ (array4.mk 1 2 3 (2 ^ 64 - 1)).wf 64 ∧
    philox4.round 64 (philox_constants_4 .uint64_t) ⟨1, 2, 3, 2 ^ 64 - 1⟩ ⟨5, 2 ^ 64 - 1⟩ =
      (⟨((philox_constants_4 .uint64_t).M1 * 3 / 2 ^ 64) ^^^ 2 ^^^ 5,
        (philox_constants_4 .uint64_t).M1 * 3 % 2 ^ 64,
        ((philox_constants_4 .uint64_t).M0 * 1 / 2 ^ 64) ^^^ (2 ^ 64 - 1) ^^^ (2 ^ 64 - 1),
        (philox_constants_4 .uint64_t).M0 * 1 % 2 ^ 64⟩,
       ⟨(5 + (philox_constants_4 .uint64_t).W0) % 2 ^ 64,
        (2 ^ 64 - 1 + (philox_constants_4 .uint64_t).W1) % 2 ^ 64⟩) :=
  ⟨by decide, by decide,
    philox4_round_spec 64 (philox_constants_4 .uint64_t) ⟨1, 2, 3, 2 ^ 64 - 1⟩
      ⟨5, 2 ^ 64 - 1⟩ (by decide) (by decide)⟩

/-- C2: one call of the 2-lane `round` on `w`-bit words replaces the counter
`(c0, c1)` by `(hi XOR k0 XOR c1, lo)` and the key `(k0)` by
`((k0 + W0) mod 2^w)`, where `hi`, `lo` are the quotient and remainder of the
exact product `M0 * c0` by `2^w`. -/
theorem philox2_round_spec (w : Nat) (K : constants2) (c : array2) (k : array1)
    (hK : K.wf w) (hc : c.wf w) :
    philox2.round w K c k =
      (⟨(K.M0 * c.e0 / 2 ^ w) ^^^ k.e0 ^^^ c.e1, K.M0 * c.e0 % 2 ^ w⟩,
       ⟨(k.e0 + K.W0) % 2 ^ w⟩) := by
  simp only [philox2.round, mulhilo_of_lt hK.1 hc.1]

theorem philox2_round_spec_witness :
    (philox_constants_2 .uint32_t).wf 32 ∧ (array2.mk (2 ^ 32 - 1) 7).wf 32 ∧
    philox2.round 32 (philox_constants_2 .uint32_t) ⟨2 ^ 32 - 1, 7⟩ ⟨2 ^ 32 - 1⟩ =
      (⟨((philox_constants_2 .uint32_t).M0 * (2 ^ 32 - 1) / 2 ^ 32) ^^^ (2 ^ 32 - 1) ^^^ 7,
        (philox_constants_2 .uint32_t).M0 * (2 ^ 32 - 1) % 2 ^ 32⟩,
       ⟨(2 ^ 32 - 1 + (philox_constants_2 .uint32_t).W0) % 2 ^ 32⟩) :=
  ⟨by decide, by decide,
    philox2_round_spec 32 (philox_constants_2 .uint32_t) ⟨2 ^ 32 - 1, 7⟩ ⟨2 ^ 32 - 1⟩
      (by decide) (by decide)⟩

/-! ## The generator transform -/

/-- C3: for both variants, every round count `R`, stored key and counter,
`operator()` returns (it is a total function) the counter component of the
`R`-fold iteration of the variant's `round`, started from the counter and the
stored key. -/
theorem call_eq_iterate_round (w : Nat) (R : Nat) :
    (∀ (K : constants2) (g : philox2) (c : array2),
      (philox2.call w K R g c).1 =
        ((fun p => philox2.round w K p.1 p.2)^[R] (c, g.k)).1) ∧
    (∀ (K : constants4) (g : philox4) (c : array4),
      (philox4.call w K R g c).1 =
        ((fun p => philox4.round w K p.1 p.2)^[R] (c, g.k)).1) := by
  constructor
  · intro K g c
    simp only [philox2.call, philox2_run_eq]
  · intro K g c
    simp only [philox4.call, philox4_run_eq]

/-- C4: philox4x64-10 with the published constants, stored key `{0,0}` and
counter `{0,0,0,0}` returns the reference tuple of the Random123 known-answer
vectors. -/
theorem philox4x64_10_kat :
    (philox4.call 64 (philox_constants_4 .uint64_t) 10 ⟨⟨0, 0⟩⟩ ⟨0, 0, 0, 0⟩).1 =
      ⟨0x16554d9eca36314c, 0xdb20fe9d672d0fdc, 0xd7e772cee186176b, 0x7e68b68aec7ba23b⟩ := by
  simp only [philox4.call, philox4_run_eq]
  decide

/-- C7: for both variants, the instance after `operator()(c)` is the instance
before the call, so `getkey()` is unchanged. -/
theorem call_preserves_stored_key (w : Nat) (R : Nat) :
    (∀ (K : constants2) (g : philox2) (c : array2),
      (philox2.call w K R g c).2 = g ∧ (philox2.call w K R g c).2.getkey = g.getkey) ∧
    (∀ (K : constants4) (g : philox4) (c : array4),
      (philox4.call w K R g c).2 = g ∧ (philox4.call w K R g c).2.getkey = g.getkey) := by
  constructor
  · intro K g c
    simp only [philox2.call, philox2_run_eq, and_self]
  · intro K g c
    simp only [philox4.call, philox4_run_eq, and_self]

/-- C8: for both variants with `R = 0`, `operator()(c)` returns `c`. -/
theorem call_zero_rounds (w : Nat) :
    (∀ (K : constants2) (g : philox2) (c : array2), (philox2.call w K 0 g c).1 = c) ∧
    (∀ (K : constants4) (g : philox4) (c : array4), (philox4.call w K 0 g c).1 = c) := by
  constructor
  · intro K g c
    simp only [philox2.call, philox2_run_eq, Function.iterate_zero, id_eq]
  · intro K g c
    simp only [philox4.call, philox4_run_eq, Function.iterate_zero, id_eq]

/-- C9: for both variants, two instances that compare equal under
`operator==` return the same output for every counter, and calling the instance
left by a first call again with the same counter returns the same output. -/
theorem call_deterministic (w : Nat) (R : Nat) (K2 : constants2) (K4 : constants4)
    (g2 h2 : philox2) (g4 h4 : philox4) (c2 : array2) (c4 : array4)
    (e2 : g2.eq h2 = true) (e4 : g4.eq h4 = true) :
    (philox2.call w K2 R g2 c2).1 = (philox2.call w K2 R h2 c2).1 ∧
    (philox2.call w K2 R (philox2.call w K2 R g2 c2).2 c2).1 = (philox2.call w K2 R g2 c2).1 ∧
    (philox4.call w K4 R g4 c4).1 = (philox4.call w K4 R h4 c4).1 ∧
    (philox4.call w K4 R (philox4.call w K4 R g4 c4).2 c4).1 =
      (philox4.call w K4 R g4 c4).1 := by
  have k2 : g2.k = h2.k := of_decide_eq_true e2
  have k4 : g4.k = h4.k := of_decide_eq_true e4
  simp only [philox2.call, philox2_run_eq, philox4.call, philox4_run_eq, k2, k4, and_self]

theorem call_deterministic_witness :
    (philox2.mk ⟨7⟩).eq (philox2.mk ⟨7⟩) = true ∧
    (philox4.mk ⟨7, 9⟩).eq (philox4.mk ⟨7, 9⟩) = true ∧
    (philox2.call 32 (philox_constants_2 .uint32_t) 10 ⟨⟨7⟩⟩ ⟨1, 2⟩).1 =
      (philox2.call 32 (philox_constants_2 .uint32_t) 10 ⟨⟨7⟩⟩ ⟨1, 2⟩).1 ∧
    (philox2.call 32 (philox_constants_2 .uint32_t) 10
        (philox2.call 32 (philox_constants_2 .uint32_t) 10 ⟨⟨7⟩⟩ ⟨1, 2⟩).2 ⟨1, 2⟩).1 =
      (philox2.call 32 (philox_constants_2 .uint32_t) 10 ⟨⟨7⟩⟩ ⟨1, 2⟩).1 ∧
    (philox4.call 32 (philox_constants_4 .uint32_t) 10 ⟨⟨7, 9⟩⟩ ⟨1, 2, 3, 4⟩).1 =
      (philox4.call 32 (philox_constants_4 .uint32_t) 10 ⟨⟨7, 9⟩⟩ ⟨1, 2, 3, 4⟩).1 ∧
    (philox4.call 32 (philox_constants_4 .uint32_t) 10
        (philox4.call 32 (philox_constants_4 .uint32_t) 10 ⟨⟨7, 9⟩⟩ ⟨1, 2, 3, 4⟩).2
        ⟨1, 2, 3, 4⟩).1 =
      (philox4.call 32 (philox_constants_4 .uint32_t) 10 ⟨⟨7, 9⟩⟩ ⟨1, 2, 3, 4⟩).1 :=
  ⟨by decide, by decide,
    call_deterministic 32 10 (philox_constants_2 .uint32_t) (philox_constants_4 .uint32_t)
      ⟨⟨7⟩⟩ ⟨⟨7⟩⟩ ⟨⟨7, 9⟩⟩ ⟨⟨7, 9⟩⟩ ⟨1, 2⟩ ⟨1, 2, 3, 4⟩ (by decide) (by decide)⟩

/-! ## Multiply-high-low -/

/-- C10: for `w`-bit words `a`, `b`, `mulhilo(a, b, hi)` returns `lo` and
writes `hi` with `lo < 2^w`, `hi < 2^w` and `hi * 2^w + lo = a * b` over the
naturals; for `w = 32` and `w = 64` (any `w > 0`) and `a = b = 2^w - 1` this is
`hi = 2^w - 2`, `lo = 1`. -/
theorem mulhilo_exact (w a b : Nat) (ha : a < 2 ^ w) (hb : b < 2 ^ w) :
    (mulhilo w a b).1 < 2 ^ w ∧ (mulhilo w a b).2 < 2 ^ w ∧
    (mulhilo w a b).2 * 2 ^ w + (mulhilo w a b).1 = a * b ∧
    (0 < w → a = 2 ^ w - 1 → b = 2 ^ w - 1 →
      (mulhilo w a b).2 = 2 ^ w - 2 ∧ (mulhilo w a b).1 = 1) := by
  refine ⟨mulhilo_lo_lt w a b, mulhilo_hi_lt w a b, ?_, ?_⟩
  · rw [mulhilo_of_lt ha hb]
    exact Nat.div_add_mod' (a * b) (2 ^ w)
  · intro hw ea eb
    rw [mulhilo_of_lt ha hb]
    have h2 : 2 ≤ 2 ^ w := by
      calc 2 = 2 ^ 1 := rfl
        _ ≤ 2 ^ w := Nat.pow_le_pow_right (by decide) hw
    obtain ⟨y, hy⟩ : ∃ y, 2 ^ w = y + 2 := ⟨2 ^ w - 2, by omega⟩
    have e : a * b = 1 + 2 ^ w * y := by
      rw [ea, eb, hy]
      simp only [Nat.add_sub_cancel, show y + 2 - 1 = y + 1 by omega, show y + 2 - 2 = y by omega]
      ring
    rw [e, Nat.add_mul_mod_self_left, Nat.add_mul_div_left _ _ (Nat.two_pow_pos w),
      Nat.mod_eq_of_lt (by omega), Nat.div_eq_of_lt (by omega)]
    omega

theorem mulhilo_exact_witness :
    2 ^ 64 - 1 < 2 ^ 64 ∧
    (mulhilo 64 (2 ^ 64 - 1) (2 ^ 64 - 1)).1 < 2 ^ 64 ∧
    (mulhilo 64 (2 ^ 64 - 1) (2 ^ 64 - 1)).2 < 2 ^ 64 ∧
    (mulhilo 64 (2 ^ 64 - 1) (2 ^ 64 - 1)).2 * 2 ^ 64 +
      (mulhilo 64 (2 ^ 64 - 1) (2 ^ 64 - 1)).1 = (2 ^ 64 - 1) * (2 ^ 64 - 1) ∧
    (0 < 64 → 2 ^ 64 - 1 = 2 ^ 64 - 1 → 2 ^ 64 - 1 = 2 ^ 64 - 1 →
      (mulhilo 64 (2 ^ 64 - 1) (2 ^ 64 - 1)).2 = 2 ^ 64 - 2 ∧
      (mulhilo 64 (2 ^ 64 - 1) (2 ^ 64 - 1)).1 = 1) :=
  ⟨by decide, mulhilo_exact 64 (2 ^ 64 - 1) (2 ^ 64 - 1) (by decide) (by decide)⟩

/-! ## Bijectivity -/

/-- C5: for the 4-lane variant with the published constants of either word
width, every round count `R` and every stored key, `operator()` is injective on
4-word counters, maps counters onto counters (a bijection of the counter
space), and toggling any single bit of any lane of the counter changes the
output. -/
theorem philox4_call_bijective (U : Uint) (R : Nat) (g : philox4) (hg : g.k.wf U.bits) :
    (∀ c d : array4, c.wf U.bits → d.wf U.bits →
      (philox4.call U.bits (philox_constants_4 U) R g c).1 =
        (philox4.call U.bits (philox_constants_4 U) R g d).1 → c = d) ∧
    (∀ c : array4, c.wf U.bits →
      (philox4.call U.bits (philox_constants_4 U) R g c).1.wf U.bits) ∧
    (∀ d : array4, d.wf U.bits →
      ∃ c : array4, c.wf U.bits ∧
        (philox4.call U.bits (philox_constants_4 U) R g c).1 = d) ∧
    (∀ (c : array4) (j : Fin 4) (i : Nat), c.wf U.bits → i < U.bits →
      (philox4.call U.bits (philox_constants_4 U) R g (c.flip j i)).1 ≠
        (philox4.call U.bits (philox_constants_4 U) R g c).1) := by
  have hb := philox4_call_bijOn (philox_constants_4_odd U).1 (philox_constants_4_odd U).2 R g hg
  refine ⟨fun c d hc hd h => hb.injOn hc hd h, fun c hc => hb.mapsTo hc, ?_, ?_⟩
  · intro d hd
    obtain ⟨c, hc, h⟩ := hb.surjOn hd
    exact ⟨c, hc, h⟩
  · intro c j i hc hi h
    exact array4_flip_ne c j i (hb.injOn (array4_flip_wf c j i hc hi) hc h)

theorem philox4_call_bijective_witness :
    (philox4.mk ⟨1, 2⟩).k.wf Uint.uint64_t.bits ∧
    ((array4.mk 0 0 0 0).flip 2 5).wf Uint.uint64_t.bits ∧
    (philox4.call 64 (philox_constants_4 .uint64_t) 10 ⟨⟨1, 2⟩⟩ ⟨0, 0, 32, 0⟩).1 ≠
      (philox4.call 64 (philox_constants_4 .uint64_t) 10 ⟨⟨1, 2⟩⟩ ⟨0, 0, 0, 0⟩).1 ∧
    (∃ c : array4, c.wf 64 ∧
      (philox4.call 64 (philox_constants_4 .uint64_t) 10 ⟨⟨1, 2⟩⟩ c).1 = ⟨0, 0, 0, 0⟩) :=
  ⟨by decide, by decide,
    (philox4_call_bijective .uint64_t 10 ⟨⟨1, 2⟩⟩ (by decide)).2.2.2 ⟨0, 0, 0, 0⟩ 2 5
      (by decide) (by decide),
    (philox4_call_bijective .uint64_t 10 ⟨⟨1, 2⟩⟩ (by decide)).2.2.1 ⟨0, 0, 0, 0⟩
      (by decide)⟩

/-- C6: for the 2-lane variant with the published constants of either word
width, every round count `R` and every stored key, `operator()` is injective on
2-word counters, maps counters onto counters (a bijection of the counter
space), and toggling any single bit of any lane of the counter changes the
output. -/
theorem philox2_call_bijective (U : Uint) (R : Nat) (g : philox2) (hg : g.k.wf U.bits) :
    (∀ c d : array2, c.wf U.bits → d.wf U.bits →
      (philox2.call U.bits (philox_constants_2 U) R g c).1 =
        (philox2.call U.bits (philox_constants_2 U) R g d).1 → c = d) ∧
    (∀ c : array2, c.wf U.bits →
      (philox2.call U.bits (philox_constants_2 U) R g c).1.wf U.bits) ∧
    (∀ d : array2, d.wf U.bits →
      ∃ c : array2, c.wf U.bits ∧
        (philox2.call U.bits (philox_constants_2 U) R g c).1 = d) ∧
    (∀ (c : array2) (j : Fin 2) (i : Nat), c.wf U.bits → i < U.bits →
      (philox2.call U.bits (philox_constants_2 U) R g (c.flip j i)).1 ≠
        (philox2.call U.bits (philox_constants_2 U) R g c).1) := by
  have hb := philox2_call_bijOn (philox_constants_2_odd U) R g hg
  refine ⟨fun c d hc hd h => hb.injOn hc hd h, fun c hc => hb.mapsTo hc, ?_, ?_⟩
  · intro d hd
    obtain ⟨c, hc, h⟩ := hb.surjOn hd
    exact ⟨c, hc, h⟩
  · intro c j i hc hi h
    exact array2_flip_ne c j i (hb.injOn (array2_flip_wf c j i hc hi) hc h)

theorem philox2_call_bijective_witness :
    (philox2.mk ⟨7⟩).k.wf Uint.uint32_t.bits ∧
    ((array2.mk 3 0).flip 1 31).wf Uint.uint32_t.bits ∧
    (philox2.call 32 (philox_constants_2 .uint32_t) 10 ⟨⟨7⟩⟩ ⟨3, 2 ^ 31⟩).1 ≠
      (philox2.call 32 (philox_constants_2 .uint32_t) 10 ⟨⟨7⟩⟩ ⟨3, 0⟩).1 ∧
    (∃ c : array2, c.wf 32 ∧
      (philox2.call 32 (philox_constants_2 .uint32_t) 10 ⟨⟨7⟩⟩ c).1 = ⟨0, 0⟩) :=
  ⟨by decide, by decide,
    (philox2_call_bijective .uint32_t 10 ⟨⟨7⟩⟩ (by decide)).2.2.2 ⟨3, 0⟩ 1 31
      (by decide) (by decide),
    (philox2_call_bijective .uint32_t 10 ⟨⟨7⟩⟩ (by decide)).2.2.1 ⟨0, 0⟩ (by decide)⟩

/-! ## Value-type operations -/

/-- C11: for both variants, `g1 == g2` holds iff the stored keys are equal
element by element, `g1 != g2` is the negation of `g1 == g2`, and two instances
built from explicit keys are equal iff the keys are equal. -/
theorem eq_iff_keys_equal :
    (∀ g1 g2 : philox2, (g1.eq g2 = true ↔ g1.k.e0 = g2.k.e0) ∧ g1.ne g2 = !g1.eq g2) ∧
    (∀ k1 k2 : array1, (philox2.philox_key k1).eq (philox2.philox_key k2) = true ↔ k1 = k2) ∧
    (∀ g1 g2 : philox4,
      (g1.eq g2 = true ↔ g1.k.e0 = g2.k.e0 ∧ g1.k.e1 = g2.k.e1) ∧ g1.ne g2 = !g1.eq g2) ∧
    (∀ k1 k2 : array2, (philox4.philox_key k1).eq (philox4.philox_key k2) = true ↔ k1 = k2) := by
  refine ⟨?_, ?_, ?_, ?_⟩
  · rintro ⟨⟨a⟩⟩ ⟨⟨b⟩⟩
    simp [philox2.eq, philox2.ne]
  · intro k1 k2
    simp [philox2.eq, philox2.philox_key]
  · rintro ⟨⟨a0, a1⟩⟩ ⟨⟨b0, b1⟩⟩
    simp [philox4.eq, philox4.ne]
  · intro k1 k2
    simp [philox4.eq, philox4.philox_key]

/-- C12: for both variants, `getkey()` returns the all-zero key after default
construction, `k` after construction from `k`, and `k` after `setkey(k)`
whatever the previous key; a second `setkey` overrides the first and repeating
a `setkey` changes nothing. -/
theorem getkey_returns_installed_key :
    (philox2.philox.getkey = ⟨0⟩ ∧
      (∀ k : array1, (philox2.philox_key k).getkey = k) ∧
      (∀ (g : philox2) (k : array1), (g.setkey k).getkey = k) ∧
      (∀ (g : philox2) (k1 k2 : array1), (g.setkey k1).setkey k2 = g.setkey k2) ∧
      (∀ (g : philox2) (k : array1), (g.setkey k).setkey k = g.setkey k)) ∧
    (philox4.philox.getkey = ⟨0, 0⟩ ∧
      (∀ k : array2, (philox4.philox_key k).getkey = k) ∧
      (∀ (g : philox4) (k : array2), (g.setkey k).getkey = k) ∧
      (∀ (g : philox4) (k1 k2 : array2), (g.setkey k1).setkey k2 = g.setkey k2) ∧
      (∀ (g : philox4) (k : array2), (g.setkey k).setkey k = g.setkey k)) := by
  refine ⟨⟨rfl, fun _ => rfl, ?_, ?_, ?_⟩, ⟨rfl, fun _ => rfl, ?_, ?_, ?_⟩⟩
  · rintro ⟨_⟩ k; rfl
  · rintro ⟨_⟩ k1 k2; rfl
  · rintro ⟨_⟩ k; rfl
  · rintro ⟨_⟩ k; rfl
  · rintro ⟨_⟩ k1 k2; rfl
  · rintro ⟨_⟩ k; rfl

/-- C13: for both variants, an instance copy-constructed from `v` has the
stored key of `v` and compares equal to it; a later `setkey` on `v` leaves the
copy with the original key, and a later `setkey` on the copy leaves `v` with its
key. -/
theorem copy_has_value_semantics :
    (∀ (v : philox2) (k : array1),
      (philox2.philox_copy v).getkey = v.getkey ∧
      (philox2.philox_copy v).eq v = true ∧
      ((scope2.declare_copy v).setkey_v k).g.getkey = v.getkey ∧
      ((scope2.declare_copy v).setkey_v k).v.getkey = k ∧
      ((scope2.declare_copy v).setkey_g k).v.getkey = v.getkey ∧
      ((scope2.declare_copy v).setkey_g k).g.getkey = k) ∧
    (∀ (v : philox4) (k : array2),
      (philox4.philox_copy v).getkey = v.getkey ∧
      (philox4.philox_copy v).eq v = true ∧
      ((scope4.declare_copy v).setkey_v k).g.getkey = v.getkey ∧
      ((scope4.declare_copy v).setkey_v k).v.getkey = k ∧
      ((scope4.declare_copy v).setkey_g k).v.getkey = v.getkey ∧
      ((scope4.declare_copy v).setkey_g k).g.getkey = k) := by
  constructor
  · rintro ⟨kv⟩ k
    simp [philox2.philox_copy, philox2.getkey, philox2.eq, scope2.declare_copy,
      scope2.setkey_v, scope2.setkey_g, philox2.setkey]
  · rintro ⟨kv⟩ k
    simp [philox4.philox_copy, philox4.getkey, philox4.eq, scope4.declare_copy,
      scope4.setkey_v, scope4.setkey_g, philox4.setkey]

/-! ## Instantiation of the class template -/

/-- C14 (as stated, refuted): the lane counts 6 and 0 are accepted, the
primary template being instantiated with its static assertion satisfied, so
acceptance is not equivalent to `N = 2 ∨ N = 4`. -/
theorem philox_instantiate_even_accepted :
    philox_instantiate 6 = some philox_template.primary ∧
    philox_instantiate 0 = some philox_template.primary ∧
    ¬ ((philox_instantiate 6).isSome = true ↔ (6 = 2 ∨ 6 = 4)) := by
  decide

/-- C14 (amended): lane count `N` denotes the 2-lane specialisation iff
`N = 2` and the 4-lane one iff `N = 4`; any other `N` denotes the primary
template, which is rejected by its static assertion iff `N` is odd and accepted
as a member-less struct iff `N` is even. -/
theorem philox_instantiate_spec (N : Nat) :
    (philox_instantiate N = some .lanes2 ↔ N = 2) ∧
    (philox_instantiate N = some .lanes4 ↔ N = 4) ∧
    (philox_instantiate N = some .primary ↔ N % 2 = 0 ∧ N ≠ 2 ∧ N ≠ 4) ∧
    (philox_instantiate N = none ↔ N % 2 = 1) := by
  by_cases h2 : N = 2
  · subst h2; decide
  by_cases h4 : N = 4
  · subst h4; decide
  have hs : philox_select N = .primary := by simp [philox_select, h2, h4]
  by_cases he : N % 2 = 0
  · simp [philox_instantiate, hs, he, h2, h4]
  · have ho : N % 2 = 1 := by omega
    simp [philox_instantiate, hs, ho, h2, h4]

/-! ## Key schedule -/

/-- C15: for both variants and a stored key of `w`-bit words, the `R`-round
loop of `operator()` reaches loop variable value `r < R` in the frame left by
`r` rounds, whose working key is `(k + r * W) mod 2^w` lane by lane; and the
`(R1 + R2)`-round output under key `k` is the `R2`-round output, under key
`(k + R1 * W) mod 2^w`, of the `R1`-round output under key `k`. -/
theorem weyl_key_schedule (w R r : Nat) (K2 : constants2) (K4 : constants4)
    (g2 : philox2) (g4 : philox4) (c2 : array2) (c4 : array4)
    (hr : r < R) (h2 : g2.k.wf w) (h4 : g4.k.wf w) :
    (philox2.run w K2 R g2 c2 =
        forLoop R (philox2.body w K2) r (philox2.run w K2 r g2 c2) ∧
      (philox2.run w K2 r g2 c2).kcopy = ⟨(g2.k.e0 + r * K2.W0) % 2 ^ w⟩ ∧
      ∀ R1 R2 : Nat,
        (philox2.call w K2 (R1 + R2) g2 c2).1 =
          (philox2.call w K2 R2 ⟨⟨(g2.k.e0 + R1 * K2.W0) % 2 ^ w⟩⟩
            (philox2.call w K2 R1 g2 c2).1).1) ∧
    (philox4.run w K4 R g4 c4 =
        forLoop R (philox4.body w K4) r (philox4.run w K4 r g4 c4) ∧
      (philox4.run w K4 r g4 c4).kcopy =
        ⟨(g4.k.e0 + r * K4.W0) % 2 ^ w, (g4.k.e1 + r * K4.W1) % 2 ^ w⟩ ∧
      ∀ R1 R2 : Nat,
        (philox4.call w K4 (R1 + R2) g4 c4).1 =
          (philox4.call w K4 R2
            ⟨⟨(g4.k.e0 + R1 * K4.W0) % 2 ^ w, (g4.k.e1 + R1 * K4.W1) % 2 ^ w⟩⟩
            (philox4.call w K4 R1 g4 c4).1).1) := by
  refine ⟨⟨?_, ?_, ?_⟩, ⟨?_, ?_, ?_⟩⟩
  · exact forLoop_split R _ r _ (Nat.le_of_lt hr)
  · rw [philox2_run_eq]
    exact philox2_iterate_key w K2 c2 g2.k h2 r
  · intro R1 R2
    simp only [philox2.call, philox2_run_eq]
    exact philox2_iterate_add w K2 c2 g2.k h2 R1 R2
  · exact forLoop_split R _ r _ (Nat.le_of_lt hr)
  · rw [philox4_run_eq]
    exact philox4_iterate_key w K4 c4 g4.k h4 r
  · intro R1 R2
    simp only [philox4.call, philox4_run_eq]
    exact philox4_iterate_add w K4 c4 g4.k h4 R1 R2

theorem weyl_key_schedule_witness :
    3 < 10 ∧ (philox2.mk ⟨2 ^ 32 - 1⟩).k.wf 32 ∧ (philox4.mk ⟨2 ^ 32 - 1, 5⟩).k.wf 32 ∧
    (philox2.run 32 (philox_constants_2 .uint32_t) 3 ⟨⟨2 ^ 32 - 1⟩⟩ ⟨1, 2⟩).kcopy =
      ⟨(2 ^ 32 - 1 + 3 * (philox_constants_2 .uint32_t).W0) % 2 ^ 32⟩ ∧
    (philox4.run 32 (philox_constants_4 .uint32_t) 3 ⟨⟨2 ^ 32 - 1, 5⟩⟩ ⟨1, 2, 3, 4⟩).kcopy =
      ⟨(2 ^ 32 - 1 + 3 * (philox_constants_4 .uint32_t).W0) % 2 ^ 32,
        (5 + 3 * (philox_constants_4 .uint32_t).W1) % 2 ^ 32⟩ ∧
    (philox4.call 32 (philox_constants_4 .uint32_t) (3 + 7) ⟨⟨2 ^ 32 - 1, 5⟩⟩ ⟨1, 2, 3, 4⟩).1 =
      (philox4.call 32 (philox_constants_4 .uint32_t) 7
        ⟨⟨(2 ^ 32 - 1 + 3 * (philox_constants_4 .uint32_t).W0) % 2 ^ 32,
          (5 + 3 * (philox_constants_4 .uint32_t).W1) % 2 ^ 32⟩⟩
        (philox4.call 32 (philox_constants_4 .uint32_t) 3 ⟨⟨2 ^ 32 - 1, 5⟩⟩
          ⟨1, 2, 3, 4⟩).1).1 :=
  ⟨by decide, by decide, by decide,
    (weyl_key_schedule 32 10 3 (philox_constants_2 .uint32_t) (philox_constants_4 .uint32_t)
      ⟨⟨2 ^ 32 - 1⟩⟩ ⟨⟨2 ^ 32 - 1, 5⟩⟩ ⟨1, 2⟩ ⟨1, 2, 3, 4⟩
      (by decide) (by decide) (by decide)).1.2.1,
    (weyl_key_schedule 32 10 3 (philox_constants_2 .uint32_t) (philox_constants_4 .uint32_t)
      ⟨⟨2 ^ 32 - 1⟩⟩ ⟨⟨2 ^ 32 - 1, 5⟩⟩ ⟨1, 2⟩ ⟨1, 2, 3, 4⟩
      (by decide) (by decide) (by decide)).2.2.1,
    (weyl_key_schedule 32 10 3 (philox_constants_2 .uint32_t) (philox_constants_4 .uint32_t)
      ⟨⟨2 ^ 32 - 1⟩⟩ ⟨⟨2 ^ 32 - 1, 5⟩⟩ ⟨1, 2⟩ ⟨1, 2, 3, 4⟩
      (by decide) (by decide) (by decide)).2.2.2 3 7⟩

/-! ## Unrolled round application -/

/-- C16: for both variants and every `R`, key and counter, applying
`_roundapplyer` to the indices `0, ..., R - 1` (the disabled `mpl::for_each`
branch) leaves the same frame, hence the same counter and working key, as the
`for` loop calling `round` `R` times; the index given to `_roundapplyer` does not
influence its effect. -/
theorem unrolled_eq_loop (w R : Nat) :
    (∀ (K : constants2) (g : philox2) (c : array2),
      philox2.run_unrolled w K R g c = philox2.run w K R g c ∧
      (philox2.run_unrolled w K R g c).c = (philox2.call w K R g c).1 ∧
      (philox2.run_unrolled w K R g c).kcopy = (philox2.run w K R g c).kcopy) ∧
    (∀ (K : constants2) (f : frame2) (i j : Nat),
      philox2.roundapplyer w K f i = philox2.roundapplyer w K f j) ∧
    (∀ (K : constants4) (g : philox4) (c : array4),
      philox4.run_unrolled w K R g c = philox4.run w K R g c ∧
      (philox4.run_unrolled w K R g c).c = (philox4.call w K R g c).1 ∧
      (philox4.run_unrolled w K R g c).kcopy = (philox4.run w K R g c).kcopy) ∧
    (∀ (K : constants4) (f : frame4) (i j : Nat),
      philox4.roundapplyer w K f i = philox4.roundapplyer w K f j) := by
  refine ⟨?_, fun _ _ _ _ => rfl, ?_, fun _ _ _ _ => rfl⟩
  · intro K g c
    have h : philox2.run_unrolled w K R g c = philox2.run w K R g c := by
      rw [philox2.run_unrolled, philox2.run, forLoop_zero]
      exact mpl_for_each_range_eq_iterate (philox2.roundapplyer w K) (philox2.body w K)
        (fun _ _ => rfl) _ R
    exact ⟨h, by rw [h]; rfl, by rw [h]⟩
  · intro K g c
    have h : philox4.run_unrolled w K R g c = philox4.run w K R g c := by
      rw [philox4.run_unrolled, philox4.run, forLoop_zero]
      exact mpl_for_each_range_eq_iterate (philox4.roundapplyer w K) (philox4.body w K)
        (fun _ _ => rfl) _ R
    exact ⟨h, by rw [h]; rfl, by rw [h]⟩

end Philox

namespace QLExtension

/-! ## Constructors -/

theorem new_nominal_eq_of_convention (ql : QuantLib) (type : SwapType) (n : Real)
    (floatingSchedule : Schedule) (iborIndex : IborIndex) (floatingDayCount : DayCounter)
    (overnightSchedule : Schedule) (overnightIndex : OvernightIndex) (spread : Real)
    (overnightDayCount : DayCounter) (p : BusinessDayConvention)
    (arithmeticAveragedCoupon : Bool) :
    IBOROISBasisSwap.new_nominal ql type n floatingSchedule iborIndex floatingDayCount
        overnightSchedule overnightIndex spread overnightDayCount (some p)
        arithmeticAveragedCoupon =
      IBOROISBasisSwap.new_nominals ql type [n] floatingSchedule iborIndex floatingDayCount
        overnightSchedule overnightIndex spread overnightDayCount (some p)
        arithmeticAveragedCoupon :=
  rfl

theorem initialize_ok_cases (ql : QuantLib) (s t : IBOROISBasisSwap)
    (h : s.initialize_ ql = .ok t) :
    ∃ legs, s.buildLegs ql = .ok legs ∧
      ((s.type_ = .Payer ∧ t = s.withLegsPayer legs (-1, 1)) ∨
        (s.type_ = .Receiver ∧ t = s.withLegsPayer legs (1, -1))) := by
  unfold IBOROISBasisSwap.initialize_ at h
  cases hb : s.buildLegs ql with
  | error e => simp [hb] at h
  | ok legs =>
    refine ⟨legs, rfl, ?_⟩
    cases ht : s.type_ with
    | Payer =>
      simp only [hb, ht, Except.ok.injEq] at h
      exact Or.inl ⟨rfl, h.symm⟩
    | Receiver =>
      simp only [hb, ht, Except.ok.injEq] at h
      exact Or.inr ⟨rfl, h.symm⟩
    | other v => simp [hb, ht] at h

theorem initialize_keeps_convention (ql : QuantLib) (s t : IBOROISBasisSwap)
    (h : s.initialize_ ql = .ok t) : t.paymentConvention_ = s.paymentConvention_ := by
  obtain ⟨legs, -, h1 | h1⟩ := initialize_ok_cases ql s t h
  · rw [h1.2]; rfl
  · rw [h1.2]; rfl

/-- C17 (evaluation at the failing input): without a payment convention, and
with a floating schedule of convention 0 and an overnight schedule of
convention 1, the single-nominal constructor stores convention 1 and the
vector-nominal constructor, given the one-element vector, stores convention 0;
the two objects differ. The stored conventions are 1 and 0 whatever the
QuantLib calls return, whenever both constructors succeed. -/
theorem constructors_differ_without_convention :
    (IBOROISBasisSwap.new_nominal QuantLib.recording .Payer 100 ⟨[1, 2], 0⟩ ⟨1⟩ ⟨2⟩
      ⟨[1, 2], 1⟩ ⟨3⟩ 0 ⟨4⟩ none false).toOption.map (fun s => s.paymentConvention_) =
        some 1 ∧
    (IBOROISBasisSwap.new_nominals QuantLib.recording .Payer [100] ⟨[1, 2], 0⟩ ⟨1⟩ ⟨2⟩
      ⟨[1, 2], 1⟩ ⟨3⟩ 0 ⟨4⟩ none false).toOption.map (fun s => s.paymentConvention_) =
        some 0 ∧
    IBOROISBasisSwap.new_nominal QuantLib.recording .Payer 100 ⟨[1, 2], 0⟩ ⟨1⟩ ⟨2⟩
        ⟨[1, 2], 1⟩ ⟨3⟩ 0 ⟨4⟩ none false ≠
      IBOROISBasisSwap.new_nominals QuantLib.recording .Payer [100] ⟨[1, 2], 0⟩ ⟨1⟩ ⟨2⟩
        ⟨[1, 2], 1⟩ ⟨3⟩ 0 ⟨4⟩ none false ∧
    (∀ (ql : QuantLib) (s1 s2 : IBOROISBasisSwap),
      IBOROISBasisSwap.new_nominal ql .Payer 100 ⟨[1, 2], 0⟩ ⟨1⟩ ⟨2⟩ ⟨[1, 2], 1⟩ ⟨3⟩ 0 ⟨4⟩
          none false = .ok s1 →
      IBOROISBasisSwap.new_nominals ql .Payer [100] ⟨[1, 2], 0⟩ ⟨1⟩ ⟨2⟩ ⟨[1, 2], 1⟩ ⟨3⟩ 0 ⟨4⟩
          none false = .ok s2 →
      s1.paymentConvention_ = 1 ∧ s2.paymentConvention_ = 0 ∧ s1 ≠ s2) := by
  refine ⟨by decide, by decide, ?_, ?_⟩
  · intro h
    have h2 := congrArg (fun r => r.toOption.map (fun s => s.paymentConvention_)) h
    revert h2
    decide
  · intro ql s1 s2 h1 h2
    have e1 : s1.paymentConvention_ = 1 := initialize_keeps_convention ql _ s1 h1
    have e2 : s2.paymentConvention_ = 0 := initialize_keeps_convention ql _ s2 h2
    refine ⟨e1, e2, ?_⟩
    intro h
    rw [h, e2] at e1
    exact absurd e1 (by decide)

/-! ## Sign convention -/

end QLExtension
